import Mathlib

/-!
Verification of the travel-expense tracker (trip/expense ledger, settlement
engine, persistence layer, exchange-rate policy and CSV export).

The TypeScript source is embedded shallowly:
* JavaScript numbers are modelled as exact rationals (`ℚ`); the JavaScript
  idiom `x || d` on numbers (which substitutes `d` for `0`, `NaN` and
  `undefined`) is modelled by `jsOr`.
* The two persistence backends (`storageService` over `localStorage`, and the
  IndexedDB variant) are modelled as pure state-passing functions over flat
  record lists; the IndexedDB object store is modelled as a key-sorted list,
  which is exactly how `getAll` observes it.
* React state updates are modelled as explicit state transformers.
-/

namespace Voyage

/-- JavaScript `x || d` on numbers: `0` (and `NaN`/`undefined`, both of which
we collapse to `0` in the rational model) is falsy and replaced by `d`. -/
def jsOr (x d : ℚ) : ℚ := if x = 0 then d else x

/-- `ExpenseCategory` enum from `types.ts`. -/
inductive ExpenseCategory
  | meal | transport | lodging | flight | supplies | entertainment | other
deriving DecidableEq, Repr

/-- `PaymentMethod` enum from `types.ts`. -/
inductive PaymentMethod
  | cash | personalCard | corporateCard
deriving DecidableEq, Repr

/-- The `Trip` record from `types.ts`. Currencies are strings (the source
stores `Currency | string`). -/
structure Trip where
  id : String
  travelerName : String
  tripName : String
  destinationCountry : String
  localCurrencySuggestion : String
  baseCurrency : String
  advanceAmount : ℚ
  initialExchangeRate : ℚ
  startDate : String
  closed : Bool
deriving DecidableEq, Repr

/-- The `Expense` record from `types.ts`. -/
structure Expense where
  id : String
  tripId : String
  date : String
  category : ExpenseCategory
  merchant : String
  amountOriginal : ℚ
  currencyOriginal : String
  exchangeRate : ℚ
  amountBase : ℚ
  paymentMethod : PaymentMethod
  receiptImage : Option String
  notes : Option String
  isVerified : Bool
deriving DecidableEq, Repr

/-! ### localStorage persistence (`storageService`, flat-list variant)

The store holds a flat list of trips under one key and a flat list of
expenses under another.  `saveTrip`/`saveExpense` look up the first index
whose `id` matches and replace it, otherwise push at the end.  `getExpenses`
filters by the `tripId` foreign key, `deleteExpense` filters the id out. -/

/-- Upsert of the flat-list backend, generic in the key projection:
`findIndex`-then-replace, else `push` (mirrors `saveTrip`/`saveExpense`). -/
def lsUpsert (key : α → String) (l : List α) (v : α) : List α :=
  match l.findIdx? (fun x => key x == key v) with
  | some i => l.set i v
  | none => l ++ [v]

/-- The persisted state of the flat-list backend: the two record lists. -/
structure LSState where
  trips : List Trip
  expenses : List Expense
deriving DecidableEq, Repr

/-- Empty store. -/
def LSState.empty : LSState := ⟨[], []⟩

/-- `getTrips` (flat-list variant). -/
def LSState.getTrips (s : LSState) : List Trip := s.trips

/-- `saveTrip` (flat-list variant); returns `undefined`, i.e. no id. -/
def LSState.saveTrip (s : LSState) (t : Trip) : LSState :=
  { s with trips := lsUpsert Trip.id s.trips t }

/-- `getExpenses(tripId)` (flat-list variant): filter by foreign key. -/
def LSState.getExpenses (s : LSState) (tripId : String) : List Expense :=
  s.expenses.filter (fun e => e.tripId == tripId)

/-- `saveExpense` (flat-list variant). -/
def LSState.saveExpense (s : LSState) (e : Expense) : LSState :=
  { s with expenses := lsUpsert Expense.id s.expenses e }

/-- `deleteExpense(expenseId)` (flat-list variant): keep every expense whose
id differs. -/
def LSState.deleteExpense (s : LSState) (expenseId : String) : LSState :=
  { s with expenses := s.expenses.filter (fun e => e.id != expenseId) }

/-! ### Dashboard calculations (`TripDashboard`) -/

/-- `totalSpent`: `expenses.reduce((acc, curr) => acc + curr.amountBase, 0)`
over the expenses loaded by `getExpenses(id)`. -/
def totalSpent (s : LSState) (tripId : String) : ℚ :=
  (s.getExpenses tripId).foldl (fun acc curr => acc + curr.amountBase) 0

/-- `balance = (trip?.advanceAmount || 0) - totalSpent`. -/
def balance (trip : Trip) (s : LSState) : ℚ :=
  jsOr trip.advanceAmount 0 - totalSpent s trip.id

/-! ### Expense form submit (`ExpenseForm.handleSubmit`)

The form state is a `Partial<Expense>` that never carries `amountBase` (the
initializer copies every field of an edited expense except `amountBase` and
`notes`); `handleSubmit` computes
`amountBase = (formData.amountOriginal || 0) * (formData.exchangeRate || 1)`
and saves the spread of the form data with that derived field. -/

/-- The fields held in `ExpenseForm`'s `formData` state. -/
structure ExpenseFormData where
  id : String
  tripId : String
  date : String
  category : ExpenseCategory
  merchant : String
  amountOriginal : ℚ
  currencyOriginal : String
  exchangeRate : ℚ
  paymentMethod : PaymentMethod
  receiptImage : Option String
  isVerified : Bool
deriving DecidableEq, Repr

/-- `ExpenseForm.handleSubmit`: derive `amountBase` and emit the expense. -/
def handleSubmit (fd : ExpenseFormData) : Expense :=
  { id := fd.id
    tripId := fd.tripId
    date := fd.date
    category := fd.category
    merchant := fd.merchant
    amountOriginal := fd.amountOriginal
    currencyOriginal := fd.currencyOriginal
    exchangeRate := fd.exchangeRate
    amountBase := jsOr fd.amountOriginal 0 * jsOr fd.exchangeRate 1
    paymentMethod := fd.paymentMethod
    receiptImage := fd.receiptImage
    notes := none
    isVerified := fd.isVerified }

/-- Rounding to money precision (two decimals), the spec's `round(·, 2)`.
`round` rounds ties up, as JavaScript `toFixed` does on exact values. -/
def roundMoney (q : ℚ) : ℚ := (round (q * 100) : ℤ) / 100

/-! ### Settlement labels (`TripDashboard`) -/

/-- The three settlement captions the dashboard can show. -/
inductive SettlementLabel
  | toReturn | toReimburse | balancedLabel
deriving DecidableEq, Repr

/-- Label of the close-confirmation card:
`balance === 0 ? t('balanced') : (balance > 0 ? t('toReturn') : t('toReimburse'))`. -/
def closeConfirmLabel (b : ℚ) : SettlementLabel :=
  if b = 0 then .balancedLabel else if b > 0 then .toReturn else .toReimburse

/-- Label of the print report header and of the print settlement row:
`balance >= 0 ? t('toReturn') : t('toReimburse')`. -/
def printSettlementLabel (b : ℚ) : SettlementLabel :=
  if b ≥ 0 then .toReturn else .toReimburse

/-! ### ExpenseForm rate updates (`updateRate` and the date input `onChange`)

The form keeps no record of a manual rate entry: the rate input's `onChange`
just stores the typed number, and the date input's `onChange` always calls
`updateRate`, which overwrites `exchangeRate` with a fresh fetch (or `1` when
the currency equals the trip's base currency). The fetched value is passed in
explicitly (the awaited result of `getEstimatedExchangeRate`). -/

/-- The rate-relevant slice of `ExpenseForm`'s state. -/
structure EFRateState where
  date : String
  currencyOriginal : String
  exchangeRate : ℚ
deriving DecidableEq, Repr

/-- `updateRate(currency, date)` from `ExpenseForm`. -/
def updateRate (baseCurrency : String) (fetch : String → String → String → ℚ)
    (currency date : String) (st : EFRateState) : EFRateState :=
  if currency == baseCurrency then { st with exchangeRate := 1 }
  else { st with exchangeRate := fetch currency baseCurrency date }

/-- Typing a rate by hand: the rate input's `onChange` stores the number. -/
def efSetRateManually (r : ℚ) (st : EFRateState) : EFRateState :=
  { st with exchangeRate := r }

/-- The date input's `onChange`: store the new date, then
`updateRate(formData.currencyOriginal, newDate)`. -/
def efDateChange (baseCurrency : String) (fetch : String → String → String → ℚ)
    (d : String) (st : EFRateState) : EFRateState :=
  updateRate baseCurrency fetch st.currencyOriginal d { st with date := d }

/-! ### Exchange-rate client (`geminiService.getEstimatedExchangeRate`)

The remote call is modelled by an oracle giving the outcome of each attempt:
a parsed `data.rate` field (possibly absent), a 503 overload (rethrown so
`retryOperation` sees it), or any other failure (caught; `1.0` is returned).
`retryOperation` retries only overloads, up to `retries` more attempts, and
rethrows the overload once they are exhausted. -/

/-- Outcome of one remote rate request. -/
inductive RemoteOutcome
  | ok (rate : Option ℚ)
  | overloaded
  | failed
deriving DecidableEq, Repr

/-- `JSON.parse(response.text || "{}")` then `data.rate || 1.0`. -/
def rateFromResponse : Option ℚ → ℚ
  | some r => if r = 0 then 1 else r
  | none => 1

/-- One attempt of the rate lookup: `.error` is a rethrown 503. -/
def rateAttempt : RemoteOutcome → Except Unit ℚ
  | .ok r => .ok (rateFromResponse r)
  | .overloaded => .error ()
  | .failed => .ok 1

/-- `retryOperation` specialised to the rate lookup: retry 503s while
`retries > 0`, with `i` counting the attempts already made. -/
def retryOperation (attempts : ℕ → RemoteOutcome) : ℕ → ℕ → Except Unit ℚ
  | retries, i =>
    match rateAttempt (attempts i), retries with
    | .ok v, _ => .ok v
    | .error e, 0 => .error e
    | .error _, r + 1 => retryOperation attempts r (i + 1)

/-- The static table used when no API credential is configured. -/
def staticFallbackRate (fromCurrency toCurrency : String) : ℚ :=
  let pair := fromCurrency ++ "-" ++ toCurrency
  if pair == "USD-BRL" then 5
  else if pair == "BRL-USD" then 1/5
  else if pair == "EUR-BRL" then 11/2
  else if pair == "BRL-EUR" then 9/50
  else if pair == "USD-EUR" then 23/25
  else if pair == "EUR-USD" then 109/100
  else 1

/-- `getEstimatedExchangeRate(fromCurrency, toCurrency, date)`; the date only
feeds the prompt, so it is absorbed into the `attempts` oracle. -/
def getEstimatedExchangeRate (hasApiKey : Bool)
    (fromCurrency toCurrency : String) (attempts : ℕ → RemoteOutcome) :
    Except Unit ℚ :=
  if fromCurrency == toCurrency then .ok 1
  else if !hasApiKey then .ok (staticFallbackRate fromCurrency toCurrency)
  else retryOperation attempts 3 0

/-! ### IndexedDB persistence (second backend)

An IndexedDB object store keyed by `id` holds at most one record per key and
enumerates records in key order, so it is modelled as a list kept sorted by
`id`. `store.put` inserts at the key's sorted position (replacing an existing
record with the same key) and resolves with the key; `store.getAll()` returns
the records in key order; the `tripId` index's `getAll(tripId)` returns the
matching records ordered by primary key, which on an id-sorted store is the
plain filter; `store.delete(id)` removes the key. `saveTrip`/`saveExpense`
resolve with `request.result`, i.e. the record's id. -/

/-- `store.put` on a key-sorted object store. -/
def idbPut (key : α → String) (v : α) : List α → List α
  | [] => [v]
  | x :: xs =>
    if key v < key x then v :: x :: xs
    else if key v = key x then v :: xs
    else x :: idbPut key v xs

/-- The two object stores of the IndexedDB backend, each sorted by `id`. -/
structure IDBState where
  trips : List Trip
  expenses : List Expense
deriving DecidableEq, Repr

/-- Empty database (fresh `onupgradeneeded` creation). -/
def IDBState.empty : IDBState := ⟨[], []⟩

/-- `getTrips` (IndexedDB): `store.getAll()`. -/
def IDBState.getTrips (s : IDBState) : List Trip := s.trips

/-- `saveTrip` (IndexedDB): `store.put(trip)`, resolves with the key. -/
def IDBState.saveTrip (s : IDBState) (t : Trip) : IDBState :=
  { s with trips := idbPut Trip.id t s.trips }

/-- `getExpenses(tripId)` (IndexedDB): the `tripId` index's `getAll`. -/
def IDBState.getExpenses (s : IDBState) (tripId : String) : List Expense :=
  s.expenses.filter (fun e => e.tripId == tripId)

/-- `saveExpense` (IndexedDB). -/
def IDBState.saveExpense (s : IDBState) (e : Expense) : IDBState :=
  { s with expenses := idbPut Expense.id e s.expenses }

/-- `deleteExpense(expenseId)` (IndexedDB): `store.delete(expenseId)`. -/
def IDBState.deleteExpense (s : IDBState) (expenseId : String) : IDBState :=
  { s with expenses := s.expenses.filter (fun e => e.id != expenseId) }

/-! ### The caller-facing contract: operation sequences over either backend -/

/-- The five operations of the persistence contract. -/
inductive StoreOp
  | listTrips
  | upsertTrip (t : Trip)
  | listExpenses (tripId : String)
  | upsertExpense (e : Expense)
  | removeExpense (expenseId : String)
deriving DecidableEq, Repr

/-- What a caller observes from one operation. An upsert resolves with
`savedKey (some id)` on the IndexedDB backend and with `savedKey none`
(`undefined`, the value of a `void` call) on the flat-list backend. -/
inductive StoreResult
  | tripList (l : List Trip)
  | expenseList (l : List Expense)
  | savedKey (k : Option String)
  | deleted
deriving DecidableEq, Repr

/-- One operation against the flat-list backend. -/
def lsStep (s : LSState) : StoreOp → StoreResult × LSState
  | .listTrips => (.tripList s.getTrips, s)
  | .upsertTrip t => (.savedKey none, s.saveTrip t)
  | .listExpenses tid => (.expenseList (s.getExpenses tid), s)
  | .upsertExpense e => (.savedKey none, s.saveExpense e)
  | .removeExpense eid => (.deleted, s.deleteExpense eid)

/-- A sequence of operations against the flat-list backend. -/
def lsRun (s : LSState) : List StoreOp → List StoreResult × LSState
  | [] => ([], s)
  | op :: ops =>
    let r := lsStep s op
    let rest := lsRun r.2 ops
    (r.1 :: rest.1, rest.2)

/-- One operation against the IndexedDB backend. -/
def idbStep (s : IDBState) : StoreOp → StoreResult × IDBState
  | .listTrips => (.tripList s.getTrips, s)
  | .upsertTrip t => (.savedKey (some t.id), s.saveTrip t)
  | .listExpenses tid => (.expenseList (s.getExpenses tid), s)
  | .upsertExpense e => (.savedKey (some e.id), s.saveExpense e)
  | .removeExpense eid => (.deleted, s.deleteExpense eid)

/-- A sequence of operations against the IndexedDB backend. -/
def idbRun (s : IDBState) : List StoreOp → List StoreResult × IDBState
  | [] => ([], s)
  | op :: ops =>
    let r := idbStep s op
    let rest := idbRun r.2 ops
    (r.1 :: rest.1, rest.2)

/-- How the two backends' answers to one operation correspond: list results
hold the same records up to order, deletes agree, and an upsert resolves with
`undefined` on the flat-list backend but with some key on IndexedDB. -/
inductive ResMatch : StoreResult → StoreResult → Prop
  | tripList {l m : List Trip} : l.Perm m → ResMatch (.tripList l) (.tripList m)
  | expenseList {l m : List Expense} : l.Perm m →
      ResMatch (.expenseList l) (.expenseList m)
  | savedKey (k : String) : ResMatch (.savedKey none) (.savedKey (some k))
  | deleted : ResMatch .deleted .deleted

/-- The key the IndexedDB backend must resolve with for an upsert. -/
def idbExpected : StoreOp → StoreResult → Prop
  | .upsertTrip t, r => r = .savedKey (some t.id)
  | .upsertExpense e, r => r = .savedKey (some e.id)
  | _, _ => True

/-- Well-formedness of a flat-list store: no two records share an id. -/
def LSInv (s : LSState) : Prop :=
  (s.trips.map Trip.id).Nodup ∧ (s.expenses.map Expense.id).Nodup

/-- Well-formedness of the IndexedDB model: both object stores are strictly
sorted by key, as IndexedDB enumerates them. -/
def IDBInv (s : IDBState) : Prop :=
  s.trips.Pairwise (fun a b => a.id < b.id)
    ∧ s.expenses.Pairwise (fun a b => a.id < b.id)

/-- The simulation relation: the two backends hold the same records, possibly
in different order. -/
def StateRel (s1 : LSState) (s2 : IDBState) : Prop :=
  s1.trips.Perm s2.trips ∧ s1.expenses.Perm s2.expenses

/-! ### CSV export (`TripDashboard.handleExportCSV`)

Number formatting follows JavaScript `Number.prototype.toFixed`: round the
value to the requested number of decimals (ties toward `+∞`, which is what
the ECMAScript algorithm's "pick the larger n" means) and print exactly that
many fraction digits. `String.prototype.replace` with a string pattern
replaces only the first occurrence, modelled by `replaceFirst`. The
translation function `t` of `useSettings` is a parameter. -/

/-- Decimal digit character of `n < 10`. -/
def digitChar (n : ℕ) : Char := Char.ofNat (48 + n)

/-- Decimal digits of a natural number, most significant first. -/
def natDigits (n : ℕ) : List Char :=
  if n < 10 then [digitChar n]
  else natDigits (n / 10) ++ [digitChar (n % 10)]
decreasing_by exact Nat.div_lt_self (by omega) (by omega)

/-- Zero-pad on the left to `d` characters. -/
def padLeftZeros (d : ℕ) (s : List Char) : List Char :=
  List.replicate (d - s.length) '0' ++ s

/-- `num.toFixed(d)` as a character list. -/
def toFixedChars (d : ℕ) (q : ℚ) : List Char :=
  let n : ℤ := round (q * (10 : ℚ) ^ d)
  let m := n.natAbs
  let sign : List Char := if n < 0 then ['-'] else []
  if d = 0 then sign ++ natDigits m
  else sign ++ natDigits (m / 10 ^ d) ++ '.' :: padLeftZeros d (natDigits (m % 10 ^ d))

/-- JavaScript `s.replace(target, repl)` with single-character string
arguments: replace the first occurrence only. -/
def replaceFirst (target repl : Char) : List Char → List Char
  | [] => []
  | c :: cs => if c = target then repl :: cs else c :: replaceFirst target repl cs

/-- `formatDecimal`: `` `"${num.toFixed(2).replace('.', ',')}"` ``. -/
def formatDecimal (q : ℚ) : String :=
  "\"" ++ String.mk (replaceFirst '.' ',' (toFixedChars 2 q)) ++ "\""

/-- `formatRate`: `` `"${num.toFixed(6).replace('.', ',')}"` ``. -/
def formatRate (q : ℚ) : String :=
  "\"" ++ String.mk (replaceFirst '.' ',' (toFixedChars 6 q)) ++ "\""

/-- `escape`: `'""'` for `null`/`undefined`, otherwise double every `"` and
wrap in quotes (the `/"/g` regex replaces all occurrences). -/
def csvEscape (v : Option String) : String :=
  match v with
  | none => "\"\""
  | some s =>
    "\"" ++ String.mk (s.data.flatMap fun c => if c = '"' then ['"', '"'] else [c]) ++ "\""

/-- The translation keys used for a trip status (`t(trip.status)`). -/
def statusKey (closed : Bool) : String := if closed then "closed" else "active"

/-- The translation keys used for a category (`t(e.category)` receives the
enum's string value). -/
def categoryKey : ExpenseCategory → String
  | .meal => "Meal"
  | .transport => "Transport"
  | .lodging => "Lodging"
  | .flight => "Flight"
  | .supplies => "Supplies"
  | .entertainment => "Entertainment"
  | .other => "Other"

/-- The translation keys used for a payment method (`t(e.paymentMethod)`). -/
def paymentMethodKey : PaymentMethod → String
  | .cash => "Cash/Advance"
  | .personalCard => "Personal Card"
  | .corporateCard => "Corporate Card"

/-- The metadata block: eight `[label, value]` rows, each cell escaped, cells
joined with `;`, rows joined with newlines. -/
def metadataRows (t : String → String) (trip : Trip) (spent bal : ℚ) : String :=
  String.intercalate "\n"
    (([[t "tripName", trip.tripName],
       [t "travelerName", trip.travelerName],
       [t "destination", trip.destinationCountry],
       [t "startDate", trip.startDate],
       [t "status", t (statusKey trip.closed)],
       [t "budget", formatDecimal trip.advanceAmount],
       [t "spent", formatDecimal spent],
       [t "settlement", formatDecimal bal]] : List (List String)).map
      fun row => String.intercalate ";" (row.map fun c => csvEscape (some c)))

/-- The table header row of the expense section. -/
def headerRow (t : String → String) (trip : Trip) : String :=
  String.intercalate ";"
    (([t "date", t "category", t "merchant",
       t "amount" ++ " (Original)", t "currency", t "rate",
       t "amount" ++ " (" ++ trip.baseCurrency ++ ")",
       t "paymentMethod", "Notes"] : List String).map fun c => csvEscape (some c))

/-- One expense row of the table section. -/
def expenseRow (t : String → String) (e : Expense) : String :=
  String.intercalate ";"
    [csvEscape (some e.date),
     csvEscape (some (t (categoryKey e.category))),
     csvEscape (some e.merchant),
     formatDecimal e.amountOriginal,
     csvEscape (some e.currencyOriginal),
     formatRate e.exchangeRate,
     formatDecimal e.amountBase,
     csvEscape (some (t (paymentMethodKey e.paymentMethod))),
     csvEscape (some (e.notes.getD ""))]

/-- All expense rows, joined with newlines. -/
def expenseRowsCSV (t : String → String) (es : List Expense) : String :=
  String.intercalate "\n" (es.map (expenseRow t))

/-- `handleExportCSV`'s `csvContent`:
`` `sep=;\n﻿${metadataRows}\n\n${headerRow}\n${expenseRows}` ``, where
`totalSpent` and `balance` come from the loaded expense list. -/
def handleExportCSV (t : String → String) (trip : Trip) (es : List Expense) :
    String :=
  let spent := es.foldl (fun acc curr => acc + curr.amountBase) 0
  let bal := jsOr trip.advanceAmount 0 - spent
  "sep=;\n" ++ "\uFEFF" ++ metadataRows t trip spent bal ++ "\n\n"
    ++ headerRow t trip ++ "\n" ++ expenseRowsCSV t es

/-! ### Concrete sample records (used by witnesses and counterexamples) -/

/-- A sample trip. -/
def sampleTrip : Trip :=
  { id := "t1"
    travelerName := "Current User"
    tripName := "Tokyo Product Launch"
    destinationCountry := "Japan"
    localCurrencySuggestion := "JPY"
    baseCurrency := "USD"
    advanceAmount := 100
    initialExchangeRate := 150
    startDate := "2024-01-01"
    closed := false }

/-- A sample expense belonging to `sampleTrip`, spending the whole advance. -/
def sampleExpense : Expense :=
  { id := "e1"
    tripId := "t1"
    date := "2024-01-02"
    category := .meal
    merchant := "Ichiran"
    amountOriginal := 15000
    currencyOriginal := "JPY"
    exchangeRate := 1/150
    amountBase := 100
    paymentMethod := .corporateCard
    receiptImage := none
    notes := none
    isVerified := false }

/-- A second sample expense, on another trip. -/
def sampleExpenseOther : Expense :=
  { id := "e2"
    tripId := "t2"
    date := "2024-02-02"
    category := .transport
    merchant := "Metro"
    amountOriginal := 10
    currencyOriginal := "USD"
    exchangeRate := 1
    amountBase := 10
    paymentMethod := .cash
    receiptImage := none
    notes := none
    isVerified := false }

/-- A sample store state holding the two expenses and the trip. -/
def sampleState : LSState :=
  { trips := [sampleTrip], expenses := [sampleExpense, sampleExpenseOther] }

/-- Form data whose exact product (`1 * 1/8 = 0.125`) has three decimals, so
it differs from its money-precision rounding. -/
def cexFormData : ExpenseFormData :=
  { id := "e9"
    tripId := "t1"
    date := "2024-03-01"
    category := .meal
    merchant := "Cafe"
    amountOriginal := 1
    currencyOriginal := "USD"
    exchangeRate := 1/8
    paymentMethod := .cash
    receiptImage := none
    isVerified := false }

/-- Form data with both amount and rate set. -/
def sampleFormData : ExpenseFormData :=
  { id := "e3"
    tripId := "t1"
    date := "2024-03-02"
    category := .supplies
    merchant := "Konbini"
    amountOriginal := 3
    currencyOriginal := "USD"
    exchangeRate := 2
    paymentMethod := .personalCard
    receiptImage := none
    isVerified := false }

/-- A rate oracle that always answers `3`. -/
def sampleFetch : String → String → String → ℚ := fun _ _ _ => 3

/-- An `ExpenseForm` session on a trip whose base currency is USD, with the
expense currency EUR. -/
def sampleEFState : EFRateState :=
  { date := "2024-01-01", currencyOriginal := "EUR", exchangeRate := 1 }

/-! ### Lemmas about the flat-list upsert -/

theorem lsUpsert_nil (key : α → String) (v : α) : lsUpsert key [] v = [v] := rfl

theorem lsUpsert_cons (key : α → String) (x : α) (xs : List α) (v : α) :
    lsUpsert key (x :: xs) v =
      if key x == key v then v :: xs else x :: lsUpsert key xs v := by
  unfold lsUpsert
  rw [List.findIdx?_cons]
  by_cases h : key x == key v
  · simp [h]
  · simp only [h, if_neg, Bool.false_eq_true, if_false]
    rw [List.findIdx?_succ]
    cases hfi : xs.findIdx? (fun y => key y == key v) with
    | none => simp
    | some i => simp

/-- The record just saved is found again by its id (`find?` returns the first
match, which after an upsert is the saved value itself). -/
theorem lsUpsert_find?_filter (key : α → String) (q : α → Bool) (l : List α)
    (v : α) (hqv : q v = true) :
    ((lsUpsert key l v).filter q).find? (fun x => key x == key v) = some v := by
  induction l with
  | nil => simp [lsUpsert_nil, hqv, List.find?]
  | cons x xs ih =>
    rw [lsUpsert_cons]
    by_cases h : key x == key v
    · simp only [h, if_true, List.filter_cons, hqv]
      simp [List.find?]
    · simp only [h, Bool.false_eq_true, if_false, List.filter_cons]
      by_cases hq : q x
      · simp only [hq, if_true]
        have h' : (key x == key v) = false := by simpa using h
        rw [List.find?_cons, h']
        exact ih
      · simp only [hq, Bool.false_eq_true, if_false]
        exact ih

/-- Saving twice is the same as saving once, on any store state. -/
theorem lsUpsert_idem (key : α → String) (l : List α) (v : α) :
    lsUpsert key (lsUpsert key l v) v = lsUpsert key l v := by
  induction l with
  | nil => simp [lsUpsert_nil, lsUpsert_cons]
  | cons x xs ih =>
    rw [lsUpsert_cons]
    by_cases h : key x == key v
    · simp [h, lsUpsert_cons]
    · rw [if_neg (by simp_all), lsUpsert_cons, if_neg (by simp_all), ih]

/-- If the id is not present yet, upsert appends. -/
theorem lsUpsert_append (key : α → String) (l : List α) (v : α)
    (h : key v ∉ l.map key) :
    lsUpsert key l v = l ++ [v] := by
  induction l with
  | nil => rfl
  | cons x xs ih =>
    rw [lsUpsert_cons, if_neg, ih (by simp_all)]
    · rfl
    · simp only [List.map_cons, List.mem_cons] at h
      simp [beq_iff_eq]
      exact fun hx => h (Or.inl hx.symm)

/-- If the id is present and ids are duplicate-free, upsert rewrites exactly
the record with that id, in place, leaving all others and the order intact. -/
theorem lsUpsert_replace (key : α → String) (l : List α) (v : α)
    (hnd : (l.map key).Nodup) (hmem : key v ∈ l.map key) :
    lsUpsert key l v = l.map (fun x => if key x == key v then v else x) := by
  induction l with
  | nil => simp at hmem
  | cons x xs ih =>
    simp only [List.map_cons, List.nodup_cons] at hnd
    rw [lsUpsert_cons, List.map_cons]
    by_cases h : key x == key v
    · have hxv : key x = key v := by simpa using h
      have hxs : xs.map (fun y => if key y == key v then v else y) = xs := by
        conv_rhs => rw [← List.map_id xs]
        apply List.map_congr_left
        intro y hy
        have hne : key y ≠ key v := fun hyv =>
          hnd.1 (hxv ▸ hyv ▸ List.mem_map_of_mem key hy)
        simp [hne]
      rw [if_pos h, if_pos h, hxs]
    · have hxv : key x ≠ key v := by simpa using h
      have hmem' : key v ∈ xs.map key := by
        rcases List.mem_cons.mp (List.map_cons key x xs ▸ hmem) with h1 | h1
        · exact absurd h1.symm hxv
        · exact h1
      rw [if_neg (by simpa using hxv), if_neg (by simpa using hxv),
        ih hnd.2 hmem']

/-- Upsert keeps the id column duplicate-free. -/
theorem lsUpsert_nodup (key : α → String) (l : List α) (v : α)
    (hnd : (l.map key).Nodup) :
    ((lsUpsert key l v).map key).Nodup := by
  by_cases hmem : key v ∈ l.map key
  · rw [lsUpsert_replace key l v hnd hmem, List.map_map]
    have hcongr : l.map (key ∘ fun x => if key x == key v then v else x) =
        l.map key := by
      apply List.map_congr_left
      intro y _
      by_cases h : key y == key v
      · simp only [Function.comp_apply, if_pos h]
        exact (beq_iff_eq.mp h).symm
      · simp [Function.comp, h]
    rw [hcongr]
    exact hnd
  · rw [lsUpsert_append key l v hmem, List.map_append]
    refine List.Nodup.append hnd (List.nodup_singleton _) ?_
    intro a ha hb
    rw [List.map_singleton, List.mem_singleton] at hb
    exact hmem (hb ▸ ha)

/-- Filtering commutes through a delete (both are filters). -/
theorem filter_filter_comm (p q : α → Bool) (l : List α) :
    (l.filter p).filter q = (l.filter q).filter p := by
  induction l with
  | nil => rfl
  | cons x xs ih =>
    by_cases hp : p x <;> by_cases hq : q x <;>
      simp [List.filter_cons, hp, hq, ih]

/-- Summing `amountBase` with `reduce` starting from an accumulator. -/
theorem foldl_amountBase (l : List Expense) (a : ℚ) :
    l.foldl (fun acc curr => acc + curr.amountBase) a =
      a + (l.map Expense.amountBase).sum := by
  induction l generalizing a with
  | nil => simp
  | cons x xs ih => simp [List.foldl_cons, ih, add_assoc]

/-- An upsert of a record that a filter rejects (and whose id is only carried
by records the filter also rejects) is invisible to that filter. -/
theorem lsUpsert_filter_of_not (key : α → String) (q : α → Bool) (l : List α)
    (v : α) (hv : q v = false)
    (hl : ∀ x ∈ l, key x = key v → q x = false) :
    (lsUpsert key l v).filter q = l.filter q := by
  induction l with
  | nil => simp [lsUpsert_nil, hv]
  | cons x xs ih =>
    rw [lsUpsert_cons]
    by_cases h : key x == key v
    · rw [if_pos h]
      have hx : q x = false := hl x (List.mem_cons_self x xs) (beq_iff_eq.mp h)
      rw [List.filter_cons, List.filter_cons]
      simp [hv, hx]
    · rw [if_neg h, List.filter_cons, List.filter_cons,
        ih (fun y hy => hl y (List.mem_cons_of_mem x hy))]

/-- `totalSpent` in closed form: the sum of `amountBase` over exactly the
expenses whose `tripId` matches. -/
theorem totalSpent_eq_sum (s : LSState) (tid : String) :
    totalSpent s tid
      = ((s.expenses.filter (fun x => x.tripId == tid)).map Expense.amountBase).sum := by
  unfold totalSpent LSState.getExpenses
  rw [foldl_amountBase, zero_add]

/-- Deleting an id that belongs to no expense of the queried trip leaves the
queried trip's expense list unchanged. -/
theorem getExpenses_deleteExpense_eq (s : LSState) (tid eid : String)
    (h : ∀ x ∈ s.expenses, x.id = eid → x.tripId ≠ tid) :
    (s.deleteExpense eid).getExpenses tid = s.getExpenses tid := by
  unfold LSState.getExpenses LSState.deleteExpense
  simp only
  rw [filter_filter_comm]
  apply List.filter_eq_self.mpr
  intro x hx
  rw [List.mem_filter] at hx
  have hid : x.tripId = tid := by simpa using hx.2
  have hne : x.id ≠ eid := fun he => (h x hx.1 he) hid
  simpa using hne

/-- `totalSpent` is a frame of `deleteExpense` on foreign ids. -/
theorem totalSpent_deleteExpense_eq (s : LSState) (tid eid : String)
    (h : ∀ x ∈ s.expenses, x.id = eid → x.tripId ≠ tid) :
    totalSpent (s.deleteExpense eid) tid = totalSpent s tid := by
  unfold totalSpent
  rw [getExpenses_deleteExpense_eq s tid eid h]

/-! ## The claims -/

/-- C1 counterexample: the saved `amountBase` is the exact product
`1 * (1/8) = 0.125`, while rounding the product to money precision gives
`0.13`; the stored field is the unrounded product. -/
theorem amountBase_not_rounded_cex :
    (handleSubmit cexFormData).amountBase = 1/8
    ∧ roundMoney (cexFormData.amountOriginal * cexFormData.exchangeRate) = 13/100
    ∧ (handleSubmit cexFormData).amountBase
        ≠ roundMoney (cexFormData.amountOriginal * cexFormData.exchangeRate) := by
  refine ⟨?_, ?_, ?_⟩ <;>
    norm_num [handleSubmit, cexFormData, roundMoney, jsOr, round_eq]

/-- C1 (amended): after a submit, the stored `amountBase` equals the exact
(unrounded) product `amountOriginal * exchangeRate` whenever the form's rate
is set (non-zero); the field is recomputed from the other two fields on every
save and is not taken from any form input. -/
theorem amountBase_exact_product (fd : ExpenseFormData)
    (h : fd.exchangeRate ≠ 0) :
    (handleSubmit fd).amountBase = fd.amountOriginal * fd.exchangeRate := by
  simp only [handleSubmit, jsOr]
  by_cases ha : fd.amountOriginal = 0 <;> simp [ha, h]

/-- C1 witness: the amended theorem applied to the sample form data. -/
theorem amountBase_exact_product_witness :
    sampleFormData.exchangeRate ≠ 0
    ∧ (handleSubmit sampleFormData).amountBase
        = sampleFormData.amountOriginal * sampleFormData.exchangeRate :=
  ⟨by decide, amountBase_exact_product sampleFormData (by decide)⟩

/-- C2: `totalSpent` is the sum of `amountBase` over exactly the expenses
whose `tripId` matches the queried trip, and upserting or deleting an expense
that belongs (and whose id belongs) to a different trip leaves it unchanged. -/
theorem totalSpent_filter_sum (s : LSState) (tid : String) (e : Expense)
    (eid : String) (he : e.tripId ≠ tid)
    (hid : ∀ x ∈ s.expenses, x.id = e.id → x.tripId ≠ tid)
    (hdel : ∀ x ∈ s.expenses, x.id = eid → x.tripId ≠ tid) :
    totalSpent s tid
        = ((s.expenses.filter (fun x => x.tripId == tid)).map Expense.amountBase).sum
    ∧ totalSpent (s.saveExpense e) tid = totalSpent s tid
    ∧ totalSpent (s.deleteExpense eid) tid = totalSpent s tid := by
  refine ⟨totalSpent_eq_sum s tid, ?_, totalSpent_deleteExpense_eq s tid eid hdel⟩
  unfold totalSpent LSState.getExpenses LSState.saveExpense
  simp only
  rw [lsUpsert_filter_of_not Expense.id _ _ _ (by simpa using he)
      (fun x hx hxe => by simpa using hid x hx hxe)]

/-- C2 witness: the theorem applied at the sample store, for trip `t1`, with
the foreign expense `e2` of trip `t2`. -/
theorem totalSpent_filter_sum_witness :
    (sampleExpenseOther.tripId ≠ "t1"
      ∧ (∀ x ∈ sampleState.expenses, x.id = sampleExpenseOther.id → x.tripId ≠ "t1")
      ∧ (∀ x ∈ sampleState.expenses, x.id = "e2" → x.tripId ≠ "t1"))
    ∧ (totalSpent sampleState "t1"
        = ((sampleState.expenses.filter (fun x => x.tripId == "t1")).map
            Expense.amountBase).sum
      ∧ totalSpent (sampleState.saveExpense sampleExpenseOther) "t1"
          = totalSpent sampleState "t1"
      ∧ totalSpent (sampleState.deleteExpense "e2") "t1"
          = totalSpent sampleState "t1") :=
  ⟨⟨by decide, by decide, by decide⟩,
    totalSpent_filter_sum sampleState "t1" sampleExpenseOther "e2"
      (by decide) (by decide) (by decide)⟩

/-- C3 counterexample: at a balance of exactly zero the print settlement
label reads "to return", not the distinct "balanced" caption, so not every
settlement-label view distinguishes zero. -/
theorem print_label_zero_balance_cex :
    balance sampleTrip sampleState = 0
    ∧ printSettlementLabel (balance sampleTrip sampleState) = .toReturn
    ∧ printSettlementLabel (balance sampleTrip sampleState) ≠ .balancedLabel := by
  have hb : balance sampleTrip sampleState = 0 := by
    have h21 : ¬("t2" : String) = "t1" := by decide
    norm_num [balance, totalSpent, LSState.getExpenses, sampleState, sampleTrip,
      sampleExpense, sampleExpenseOther, jsOr, List.filter_cons, beq_iff_eq, h21]
  refine ⟨hb, ?_, ?_⟩ <;> rw [hb] <;> simp [printSettlementLabel]

/-- C3 (amended): `balance = (advanceAmount || 0) - totalSpent`; the
close-confirmation card distinguishes all three signs (positive "to return",
negative "to reimburse", zero "balanced"), while the print views split at
`balance >= 0`, labelling zero "to return". -/
theorem balance_and_labels (trip : Trip) (s : LSState) (b : ℚ) :
    balance trip s
        = jsOr trip.advanceAmount 0
          - ((s.expenses.filter (fun x => x.tripId == trip.id)).map
              Expense.amountBase).sum
    ∧ (closeConfirmLabel b = .toReturn ↔ 0 < b)
    ∧ (closeConfirmLabel b = .toReimburse ↔ b < 0)
    ∧ (closeConfirmLabel b = .balancedLabel ↔ b = 0)
    ∧ (printSettlementLabel b = .toReturn ↔ 0 ≤ b)
    ∧ (printSettlementLabel b = .toReimburse ↔ b < 0) := by
  refine ⟨?_, ?_, ?_, ?_, ?_, ?_⟩
  · unfold balance
    rw [totalSpent_eq_sum]
  · simp only [closeConfirmLabel]
    split_ifs with h1 h2
    · simp [h1]
    · simp [h2]
    · simp [h2]
  · simp only [closeConfirmLabel]
    split_ifs with h1 h2
    · simp [h1]
    · simp [not_lt.mpr h2.le]
    · simp [lt_of_le_of_ne (le_of_not_lt h2) h1]
  · simp only [closeConfirmLabel]
    split_ifs with h1 h2
    · simp [h1]
    · simp [h1]
    · simp [h1]
  · simp only [printSettlementLabel]
    split_ifs with h
    · simp [h]
    · simp [h]
  · simp only [printSettlementLabel]
    split_ifs with h
    · simp [not_lt.mpr h]
    · simp [lt_of_not_ge h]

/-- C5: after a save, re-reading through `getTrips` (resp. `getExpenses` with
the record's `tripId`) finds a record equal in all fields to the one saved,
and saving the same record twice leaves the store exactly as saving it once. -/
theorem save_roundtrip_idempotent (s : LSState) (t : Trip) (e : Expense) :
    ((s.saveTrip t).getTrips.find? (fun x => x.id == t.id) = some t)
    ∧ (((s.saveExpense e).getExpenses e.tripId).find? (fun x => x.id == e.id)
        = some e)
    ∧ ((s.saveTrip t).saveTrip t = s.saveTrip t)
    ∧ ((s.saveExpense e).saveExpense e = s.saveExpense e) := by
  refine ⟨?_, ?_, ?_, ?_⟩
  · have h := lsUpsert_find?_filter Trip.id (fun _ => true) s.trips t rfl
    simpa [LSState.saveTrip, LSState.getTrips, List.filter_true] using h
  · exact lsUpsert_find?_filter Expense.id (fun x => x.tripId == e.tripId)
      s.expenses e (by simp)
  · simp [LSState.saveTrip, lsUpsert_idem]
  · simp [LSState.saveExpense, lsUpsert_idem]

/-- C6: `deleteExpense` removes exactly the expenses carrying the deleted id
from every subsequent `listExpenses` result, keeps every other expense
record untouched, and leaves `totalSpent` of a trip the deleted id does not
belong to unchanged. -/
theorem deleteExpense_frame (s : LSState) (tid eid : String)
    (h : ∀ x ∈ s.expenses, x.id = eid → x.tripId ≠ tid) :
    (∀ tid', (s.deleteExpense eid).getExpenses tid'
        = (s.getExpenses tid').filter (fun x => x.id != eid))
    ∧ (∀ x ∈ s.expenses, x.id ≠ eid → x ∈ (s.deleteExpense eid).expenses)
    ∧ (∀ x ∈ (s.deleteExpense eid).expenses, x ∈ s.expenses ∧ x.id ≠ eid)
    ∧ totalSpent (s.deleteExpense eid) tid = totalSpent s tid := by
  refine ⟨?_, ?_, ?_, totalSpent_deleteExpense_eq s tid eid h⟩
  · intro tid'
    unfold LSState.getExpenses LSState.deleteExpense
    simp only
    rw [filter_filter_comm]
  · intro x hx hne
    unfold LSState.deleteExpense
    simp only
    rw [List.mem_filter]
    exact ⟨hx, by simpa using hne⟩
  · intro x hx
    unfold LSState.deleteExpense at hx
    simp only at hx
    rw [List.mem_filter] at hx
    exact ⟨hx.1, by simpa using hx.2⟩

/-- C6 witness: deleting an id that is absent from the sample store. -/
theorem deleteExpense_frame_witness :
    (∀ x ∈ sampleState.expenses, x.id = "zzz" → x.tripId ≠ "t1")
    ∧ ((∀ tid', (sampleState.deleteExpense "zzz").getExpenses tid'
          = (sampleState.getExpenses tid').filter (fun x => x.id != "zzz"))
      ∧ (∀ x ∈ sampleState.expenses, x.id ≠ "zzz"
          → x ∈ (sampleState.deleteExpense "zzz").expenses)
      ∧ (∀ x ∈ (sampleState.deleteExpense "zzz").expenses,
          x ∈ sampleState.expenses ∧ x.id ≠ "zzz")
      ∧ totalSpent (sampleState.deleteExpense "zzz") "t1"
          = totalSpent sampleState "t1") :=
  ⟨by decide, deleteExpense_frame sampleState "t1" "zzz" (by decide)⟩

/-- C7: evaluating `ExpenseForm` at the failing scenario: the user types the
rate `5` by hand, then changes only the date while the currency pair (EUR
against base USD) is unchanged; the date handler refetches and overwrites the
manual rate with the fetched `3`. -/
theorem expenseForm_dateChange_overwrites_manual_rate :
    (efSetRateManually 5 sampleEFState).exchangeRate = 5
    ∧ (efDateChange "USD" sampleFetch "2024-01-02"
        (efSetRateManually 5 sampleEFState)).currencyOriginal
      = (efSetRateManually 5 sampleEFState).currencyOriginal
    ∧ (efDateChange "USD" sampleFetch "2024-01-02"
        (efSetRateManually 5 sampleEFState)).exchangeRate = 3 := by
  refine ⟨?_, ?_, ?_⟩ <;> decide

/-- C9 counterexample: with a credential configured, a 503 overload on every
attempt exhausts the retries and the rejection propagates to the caller; the
lookup neither returns `1.0` nor any positive rate. -/
theorem rate_overload_propagates_cex :
    getEstimatedExchangeRate true "USD" "BRL" (fun _ => .overloaded) = .error ()
    ∧ getEstimatedExchangeRate true "USD" "BRL" (fun _ => .overloaded) ≠ .ok 1 := by
  have h : getEstimatedExchangeRate true "USD" "BRL" (fun _ => .overloaded)
      = .error () := by rfl
  exact ⟨h, by rw [h]; exact fun hc => Except.noConfusion hc⟩

/-- C9 (amended): for distinct currencies, the lookup returns the static
table's (positive) value when no credential is configured; with a credential
it returns `1.0` on a non-overload failure, passes a non-zero parsed rate
through unchanged (even a negative one), and propagates the rejection when
every attempt is a 503 overload. -/
theorem getEstimatedExchangeRate_policy (fromC toC : String)
    (attempts : ℕ → RemoteOutcome) (hne : fromC ≠ toC) :
    (getEstimatedExchangeRate false fromC toC attempts
        = .ok (staticFallbackRate fromC toC))
    ∧ (0 < staticFallbackRate fromC toC)
    ∧ (attempts 0 = .failed →
        getEstimatedExchangeRate true fromC toC attempts = .ok 1)
    ∧ ((∀ i, attempts i = .overloaded) →
        getEstimatedExchangeRate true fromC toC attempts = .error ())
    ∧ (∀ r : ℚ, r ≠ 0 → attempts 0 = .ok (some r) →
        getEstimatedExchangeRate true fromC toC attempts = .ok r) := by
  have hb : (fromC == toC) = false := by simpa using hne
  refine ⟨?_, ?_, ?_, ?_, ?_⟩
  · simp [getEstimatedExchangeRate, hb]
  · unfold staticFallbackRate
    dsimp only
    split_ifs <;> norm_num
  · intro h
    simp [getEstimatedExchangeRate, hb, retryOperation, rateAttempt, h]
  · intro h
    simp [getEstimatedExchangeRate, hb, retryOperation, rateAttempt, h]
  · intro r hr h
    simp [getEstimatedExchangeRate, hb, retryOperation, rateAttempt, h,
      rateFromResponse, hr]

/-- C9 witness: the amended theorem at the pair USD to BRL with a
non-overload failure oracle. -/
theorem getEstimatedExchangeRate_policy_witness :
    ("USD" : String) ≠ "BRL"
    ∧ ((getEstimatedExchangeRate false "USD" "BRL" (fun _ => .failed)
          = .ok (staticFallbackRate "USD" "BRL"))
      ∧ (0 < staticFallbackRate "USD" "BRL")
      ∧ ((fun _ : ℕ => RemoteOutcome.failed) 0 = .failed →
          getEstimatedExchangeRate true "USD" "BRL" (fun _ => .failed) = .ok 1)
      ∧ ((∀ i, (fun _ : ℕ => RemoteOutcome.failed) i = .overloaded) →
          getEstimatedExchangeRate true "USD" "BRL" (fun _ => .failed)
            = .error ())
      ∧ (∀ r : ℚ, r ≠ 0 → (fun _ : ℕ => RemoteOutcome.failed) 0 = .ok (some r) →
          getEstimatedExchangeRate true "USD" "BRL" (fun _ => .failed) = .ok r)) :=
  ⟨by decide,
    getEstimatedExchangeRate_policy "USD" "BRL" (fun _ => .failed) (by decide)⟩

/-- C10: the id column of each collection stays duplicate-free under every
operation; an upsert of a present id rewrites exactly that record in place
(order and all other records untouched), an upsert of a fresh id appends,
and deleting an absent id is a no-op. -/
theorem store_id_invariant (s : LSState) (t : Trip) (e : Expense)
    (eid : String) (h1 : (s.trips.map Trip.id).Nodup)
    (h2 : (s.expenses.map Expense.id).Nodup) :
    ((s.saveTrip t).trips.map Trip.id).Nodup
    ∧ ((s.saveExpense e).expenses.map Expense.id).Nodup
    ∧ ((s.deleteExpense eid).expenses.map Expense.id).Nodup
    ∧ ((s.saveTrip t).trips
        = if t.id ∈ s.trips.map Trip.id then
            s.trips.map (fun x => if x.id == t.id then t else x)
          else s.trips ++ [t])
    ∧ ((s.saveExpense e).expenses
        = if e.id ∈ s.expenses.map Expense.id then
            s.expenses.map (fun x => if x.id == e.id then e else x)
          else s.expenses ++ [e])
    ∧ (eid ∉ s.expenses.map Expense.id → s.deleteExpense eid = s) := by
  refine ⟨lsUpsert_nodup Trip.id s.trips t h1,
    lsUpsert_nodup Expense.id s.expenses e h2, ?_, ?_, ?_, ?_⟩
  · exact h2.sublist (List.Sublist.map _ (List.filter_sublist _))
  · by_cases hmem : t.id ∈ s.trips.map Trip.id
    · rw [if_pos hmem]
      exact lsUpsert_replace Trip.id s.trips t h1 hmem
    · rw [if_neg hmem]
      exact lsUpsert_append Trip.id s.trips t hmem
  · by_cases hmem : e.id ∈ s.expenses.map Expense.id
    · rw [if_pos hmem]
      exact lsUpsert_replace Expense.id s.expenses e h2 hmem
    · rw [if_neg hmem]
      exact lsUpsert_append Expense.id s.expenses e hmem
  · intro hmem
    unfold LSState.deleteExpense
    have : s.expenses.filter (fun x => x.id != eid) = s.expenses := by
      apply List.filter_eq_self.mpr
      intro x hx
      have : x.id ≠ eid := fun he => hmem (he ▸ List.mem_map_of_mem Expense.id hx)
      simpa using this
    rw [this]

/-- C10 witness: the invariant theorem at the sample store. -/
theorem store_id_invariant_witness :
    ((sampleState.trips.map Trip.id).Nodup
      ∧ (sampleState.expenses.map Expense.id).Nodup)
    ∧ (((sampleState.saveTrip sampleTrip).trips.map Trip.id).Nodup
      ∧ ((sampleState.saveExpense sampleExpense).expenses.map Expense.id).Nodup
      ∧ ((sampleState.deleteExpense "zzz").expenses.map Expense.id).Nodup
      ∧ ((sampleState.saveTrip sampleTrip).trips
          = if sampleTrip.id ∈ sampleState.trips.map Trip.id then
              sampleState.trips.map
                (fun x => if x.id == sampleTrip.id then sampleTrip else x)
            else sampleState.trips ++ [sampleTrip])
      ∧ ((sampleState.saveExpense sampleExpense).expenses
          = if sampleExpense.id ∈ sampleState.expenses.map Expense.id then
              sampleState.expenses.map
                (fun x => if x.id == sampleExpense.id then sampleExpense else x)
            else sampleState.expenses ++ [sampleExpense])
      ∧ ("zzz" ∉ sampleState.expenses.map Expense.id →
          sampleState.deleteExpense "zzz" = sampleState)) :=
  ⟨⟨by decide, by decide⟩,
    store_id_invariant sampleState sampleTrip sampleExpense "zzz"
      (by decide) (by decide)⟩

/-! ## Backend equivalence (C4) -/

/-- On a store with duplicate-free ids, an upsert is, up to order, "the new
record plus every old record with a different id". -/
theorem lsUpsert_perm_filter (key : α → String) (l : List α) (v : α)
    (hnd : (l.map key).Nodup) :
    (lsUpsert key l v).Perm (v :: l.filter (fun x => key x != key v)) := by
  induction l with
  | nil => simp [lsUpsert_nil]
  | cons x xs ih =>
    simp only [List.map_cons, List.nodup_cons] at hnd
    rw [lsUpsert_cons, List.filter_cons]
    by_cases h : key x == key v
    · have hxv : key x = key v := beq_iff_eq.mp h
      have hbx : (key x != key v) = false := by simp [bne, h]
      have hfix : xs.filter (fun y => key y != key v) = xs := by
        apply List.filter_eq_self.mpr
        intro y hy
        have : key y ≠ key v := fun hyv =>
          hnd.1 (hxv ▸ hyv ▸ List.mem_map_of_mem key hy)
        simpa using this
      rw [if_pos h, hbx, if_neg Bool.false_ne_true, hfix]
    · have hb : (key x != key v) = true := by simpa using h
      rw [if_neg h, hb, if_pos rfl]
      exact ((ih hnd.2).cons x).trans (List.Perm.swap v x _)

/-- Everything in `idbPut key v l` is `v` or was in `l`. -/
theorem mem_idbPut (key : α → String) (v : α) (l : List α) :
    ∀ y ∈ idbPut key v l, y = v ∨ y ∈ l := by
  induction l with
  | nil => simp [idbPut]
  | cons x xs ih =>
    intro y hy
    rw [idbPut] at hy
    split_ifs at hy with h1 h2
    · rcases List.mem_cons.mp hy with h | h
      · exact Or.inl h
      · exact Or.inr h
    · rcases List.mem_cons.mp hy with h | h
      · exact Or.inl h
      · exact Or.inr (List.mem_cons_of_mem x h)
    · rcases List.mem_cons.mp hy with h | h
      · exact Or.inr (h ▸ List.mem_cons_self x xs)
      · rcases ih y h with h' | h'
        · exact Or.inl h'
        · exact Or.inr (List.mem_cons_of_mem x h')

/-- `store.put` keeps the object store strictly sorted by key. -/
theorem idbPut_sorted (key : α → String) (v : α) (l : List α)
    (hs : l.Pairwise (fun a b => key a < key b)) :
    (idbPut key v l).Pairwise (fun a b => key a < key b) := by
  induction l with
  | nil => simp [idbPut]
  | cons x xs ih =>
    rw [List.pairwise_cons] at hs
    rw [idbPut]
    split_ifs with h1 h2
    · exact List.Pairwise.cons
        (fun y hy => by
          rcases List.mem_cons.mp hy with h | h
          · exact h ▸ h1
          · exact h1.trans (hs.1 y h))
        (List.Pairwise.cons hs.1 hs.2)
    · exact List.Pairwise.cons (fun y hy => h2 ▸ hs.1 y hy) hs.2
    · refine List.Pairwise.cons (fun y hy => ?_) (ih hs.2)
      rcases mem_idbPut key v xs y hy with h | h
      · subst h
        exact lt_of_le_of_ne (le_of_not_lt h1) (Ne.symm h2)
      · exact hs.1 y h

/-- On a sorted store, `store.put` is also, up to order, "the new record plus
every old record with a different key". -/
theorem idbPut_perm_filter (key : α → String) (v : α) (l : List α)
    (hs : l.Pairwise (fun a b => key a < key b)) :
    (idbPut key v l).Perm (v :: l.filter (fun x => key x != key v)) := by
  induction l with
  | nil => simp [idbPut]
  | cons x xs ih =>
    rw [List.pairwise_cons] at hs
    by_cases h1 : key v < key x
    · have hx : (key x != key v) = true := bne_iff_ne.mpr (ne_of_gt h1)
      have hfix : xs.filter (fun y => key y != key v) = xs := by
        apply List.filter_eq_self.mpr
        intro y hy
        exact bne_iff_ne.mpr (ne_of_gt (h1.trans (hs.1 y hy)))
      rw [idbPut, if_pos h1, List.filter_cons, hx, if_pos rfl, hfix]
    · by_cases h2 : key v = key x
      · have hx : (key x != key v) = false := by simp [bne, h2]
        have hfix : xs.filter (fun y => key y != key v) = xs := by
          apply List.filter_eq_self.mpr
          intro y hy
          exact bne_iff_ne.mpr (ne_of_gt (h2 ▸ hs.1 y hy))
        rw [idbPut, if_neg h1, if_pos h2, List.filter_cons, hx,
          if_neg Bool.false_ne_true, hfix]
      · have hxv : key x < key v := lt_of_le_of_ne (le_of_not_lt h1) (Ne.symm h2)
        have hx : (key x != key v) = true := bne_iff_ne.mpr (ne_of_lt hxv)
        rw [idbPut, if_neg h1, if_neg h2, List.filter_cons, hx, if_pos rfl]
        exact ((ih hs.2).cons x).trans (List.Perm.swap v x _)

/-- A strictly key-sorted store has duplicate-free keys. -/
theorem sorted_key_nodup (key : α → String) (l : List α)
    (hs : l.Pairwise (fun a b => key a < key b)) : (l.map key).Nodup := by
  have : l.Pairwise (fun a b => key a ≠ key b) := hs.imp ne_of_lt
  exact (List.pairwise_map).mpr this

/-- One operation preserves both invariants and the simulation relation, and
the two answers correspond. -/
theorem step_sim (op : StoreOp) (s1 : LSState) (s2 : IDBState)
    (h1 : LSInv s1) (h2 : IDBInv s2) (hr : StateRel s1 s2) :
    ResMatch (lsStep s1 op).1 (idbStep s2 op).1
    ∧ LSInv (lsStep s1 op).2 ∧ IDBInv (idbStep s2 op).2
    ∧ StateRel (lsStep s1 op).2 (idbStep s2 op).2 := by
  cases op with
  | listTrips =>
    exact ⟨ResMatch.tripList hr.1, h1, h2, hr⟩
  | upsertTrip t =>
    refine ⟨ResMatch.savedKey t.id, ⟨lsUpsert_nodup _ _ _ h1.1, h1.2⟩,
      ⟨idbPut_sorted _ _ _ h2.1, h2.2⟩, ?_, hr.2⟩
    show (lsUpsert Trip.id s1.trips t).Perm (idbPut Trip.id t s2.trips)
    exact (lsUpsert_perm_filter Trip.id s1.trips t h1.1).trans
      (((hr.1.filter _).cons t).trans
        (idbPut_perm_filter Trip.id t s2.trips h2.1).symm)
  | listExpenses tid =>
    exact ⟨ResMatch.expenseList (hr.2.filter _), h1, h2, hr⟩
  | upsertExpense e =>
    refine ⟨ResMatch.savedKey e.id, ⟨h1.1, lsUpsert_nodup _ _ _ h1.2⟩,
      ⟨h2.1, idbPut_sorted _ _ _ h2.2⟩, hr.1, ?_⟩
    show (lsUpsert Expense.id s1.expenses e).Perm (idbPut Expense.id e s2.expenses)
    exact (lsUpsert_perm_filter Expense.id s1.expenses e h1.2).trans
      (((hr.2.filter _).cons e).trans
        (idbPut_perm_filter Expense.id e s2.expenses h2.2).symm)
  | removeExpense eid =>
    exact ⟨ResMatch.deleted,
      ⟨h1.1, h1.2.sublist (List.Sublist.map _ (List.filter_sublist _))⟩,
      ⟨h2.1, h2.2.filter _⟩, hr.1, hr.2.filter _⟩

/-- Every run from related well-formed states produces pointwise
corresponding answers. -/
theorem run_sim (ops : List StoreOp) : ∀ (s1 : LSState) (s2 : IDBState),
    LSInv s1 → IDBInv s2 → StateRel s1 s2 →
    List.Forall₂ ResMatch (lsRun s1 ops).1 (idbRun s2 ops).1 := by
  induction ops with
  | nil => intro _ _ _ _ _; simp [lsRun, idbRun]
  | cons op ops ih =>
    intro s1 s2 h1 h2 hr
    obtain ⟨hm, h1', h2', hr'⟩ := step_sim op s1 s2 h1 h2 hr
    simp only [lsRun, idbRun]
    exact List.Forall₂.cons hm (ih _ _ h1' h2' hr')

/-- The IndexedDB backend resolves every upsert with the saved record's id. -/
theorem idb_keys (ops : List StoreOp) : ∀ s2 : IDBState,
    List.Forall₂ idbExpected ops (idbRun s2 ops).1 := by
  induction ops with
  | nil => intro _; simp [idbRun]
  | cons op ops ih =>
    intro s2
    simp only [idbRun]
    refine List.Forall₂.cons ?_ (ih _)
    cases op <;> simp [idbStep, idbExpected]

/-- C4 counterexample: already the first operation answers differently on the
two backends: the flat-list `saveTrip` returns nothing (`undefined`), while
the IndexedDB `saveTrip` resolves with the saved trip's id. -/
theorem backend_upsert_result_cex :
    (lsRun LSState.empty [.upsertTrip sampleTrip]).1 = [.savedKey none]
    ∧ (idbRun IDBState.empty [.upsertTrip sampleTrip]).1
        = [.savedKey (some "t1")]
    ∧ (lsRun LSState.empty [.upsertTrip sampleTrip]).1
        ≠ (idbRun IDBState.empty [.upsertTrip sampleTrip]).1 := by
  refine ⟨rfl, rfl, ?_⟩
  intro h
  simp [lsRun, idbRun, lsStep, idbStep] at h

/-- C4 (amended): for every operation sequence from empty stores, the two
backends' answers correspond pointwise: list results hold exactly the same
records (the flat-list backend in insertion order, IndexedDB in key order),
deletes agree, and both backends always succeed; but the upsert return values
differ: the flat-list backend returns `undefined` where IndexedDB resolves
with the saved record's id. -/
theorem backend_observational_match (ops : List StoreOp) :
    List.Forall₂ ResMatch (lsRun LSState.empty ops).1
        (idbRun IDBState.empty ops).1
    ∧ List.Forall₂ idbExpected ops (idbRun IDBState.empty ops).1 :=
  ⟨run_sim ops LSState.empty IDBState.empty ⟨by simp [LSState.empty], by simp [LSState.empty]⟩
      ⟨List.Pairwise.nil, List.Pairwise.nil⟩
      ⟨List.Perm.refl _, List.Perm.refl _⟩,
    idb_keys ops IDBState.empty⟩

/-! ## CSV export (C8) -/

theorem digitChar_isDigit (k : ℕ) (h : k < 10) : (digitChar k).isDigit = true := by
  interval_cases k <;> decide

theorem natDigits_isDigit (n : ℕ) : ∀ c ∈ natDigits n, c.isDigit = true := by
  induction n using Nat.strong_induction_on with
  | _ n ih =>
    rw [natDigits]
    split_ifs with h
    · intro c hc
      rw [List.mem_singleton] at hc
      exact hc ▸ digitChar_isDigit n h
    · intro c hc
      rcases List.mem_append.mp hc with h1 | h1
      · exact ih (n / 10) (Nat.div_lt_self (by omega) (by omega)) c h1
      · rw [List.mem_singleton] at h1
        exact h1 ▸ digitChar_isDigit _ (Nat.mod_lt _ (by omega))

theorem padLeftZeros_isDigit (d : ℕ) (s : List Char)
    (hs : ∀ c ∈ s, c.isDigit = true) :
    ∀ c ∈ padLeftZeros d s, c.isDigit = true := by
  intro c hc
  rcases List.mem_append.mp hc with h | h
  · rw [List.eq_of_mem_replicate h]; decide
  · exact hs c h

/-- A `toFixed` result with `d ≠ 0` decimals is an optional minus sign and
digits, one dot, then digits. -/
theorem toFixedChars_structure (d : ℕ) (hd : d ≠ 0) (q : ℚ) :
    ∃ pre post : List Char,
      toFixedChars d q = pre ++ '.' :: post
      ∧ (∀ c ∈ pre, c = '-' ∨ c.isDigit = true)
      ∧ (∀ c ∈ post, c.isDigit = true) := by
  unfold toFixedChars
  dsimp only
  rw [if_neg hd]
  refine ⟨(if round (q * (10 : ℚ) ^ d) < 0 then ['-'] else [])
      ++ natDigits ((round (q * (10 : ℚ) ^ d)).natAbs / 10 ^ d),
    padLeftZeros d (natDigits ((round (q * (10 : ℚ) ^ d)).natAbs % 10 ^ d)),
    by rw [List.append_assoc], ?_, ?_⟩
  · intro c hc
    rcases List.mem_append.mp hc with h | h
    · left
      split_ifs at h
      · exact List.mem_singleton.mp h
      · exact absurd h (List.not_mem_nil c)
    · exact Or.inr (natDigits_isDigit _ c h)
  · exact padLeftZeros_isDigit d _ (natDigits_isDigit _)

theorem replaceFirst_append (target repl : Char) (l₁ l₂ : List Char)
    (h : target ∉ l₁) :
    replaceFirst target repl (l₁ ++ target :: l₂) = l₁ ++ repl :: l₂ := by
  induction l₁ with
  | nil => simp [replaceFirst]
  | cons c cs ih =>
    rw [List.cons_append, List.cons_append]
    simp only [replaceFirst]
    rw [if_neg (fun hc => h (by rw [← hc]; exact List.mem_cons_self c cs)),
      ih (fun hm => h (List.mem_cons_of_mem c hm))]

/-- Replacing the dot with a comma in a `toFixed` result removes every dot
and introduces a comma. -/
theorem toFixed_replaced_chars (d : ℕ) (hd : d ≠ 0) (q : ℚ) :
    '.' ∉ replaceFirst '.' ',' (toFixedChars d q)
    ∧ ',' ∈ replaceFirst '.' ',' (toFixedChars d q) := by
  obtain ⟨pre, post, heq, hpre, hpost⟩ := toFixedChars_structure d hd q
  have hdot : '.' ∉ pre := fun hm => by
    rcases hpre '.' hm with h | h
    · exact absurd h (by decide)
    · exact absurd h (by decide)
  rw [heq, replaceFirst_append _ _ _ _ hdot]
  constructor
  · intro hm
    rcases List.mem_append.mp hm with h | h
    · exact hdot h
    · rcases List.mem_cons.mp h with h1 | h1
      · exact absurd h1 (by decide)
      · exact absurd (hpost '.' h1) (by decide)
  · exact List.mem_append_right _ (List.mem_cons_self _ _)

/-- `formatDecimal` emits no dot and exactly a comma as decimal separator. -/
theorem formatDecimal_comma (q : ℚ) :
    '.' ∉ (formatDecimal q).data ∧ ',' ∈ (formatDecimal q).data := by
  obtain ⟨hno, hyes⟩ := toFixed_replaced_chars 2 (by omega) q
  unfold formatDecimal
  rw [String.data_append, String.data_append]
  constructor
  · intro hm
    rcases List.mem_append.mp hm with h | h
    · rcases List.mem_append.mp h with h1 | h1
      · exact absurd h1 (by decide)
      · exact hno h1
    · exact absurd h (by decide)
  · exact List.mem_append_left _ (List.mem_append_right _ hyes)

/-- `formatRate` emits no dot and exactly a comma as decimal separator. -/
theorem formatRate_comma (q : ℚ) :
    '.' ∉ (formatRate q).data ∧ ',' ∈ (formatRate q).data := by
  obtain ⟨hno, hyes⟩ := toFixed_replaced_chars 6 (by omega) q
  unfold formatRate
  rw [String.data_append, String.data_append]
  constructor
  · intro hm
    rcases List.mem_append.mp hm with h | h
    · rcases List.mem_append.mp h with h1 | h1
      · exact absurd h1 (by decide)
      · exact hno h1
    · exact absurd h (by decide)
  · exact List.mem_append_left _ (List.mem_append_right _ hyes)

/-- The exported text starts with the `sep=;` hint line and only then the
byte-order mark. -/
theorem handleExportCSV_head (t : String → String) (trip : Trip)
    (es : List Expense) :
    (handleExportCSV t trip es).data.take 7 = ['s', 'e', 'p', '=', ';', '\n', '﻿']
    ∧ (handleExportCSV t trip es).data.head? = some 's' := by
  have e1 : ("sep=;\n" : String).data = ['s', 'e', 'p', '=', ';', '\n'] := rfl
  have e2 : ("﻿" : String).data = ['﻿'] := rfl
  have hd : (handleExportCSV t trip es).data
      = ['s', 'e', 'p', '=', ';', '\n', '﻿'] ++
        ((metadataRows t trip (es.foldl (fun acc curr => acc + curr.amountBase) 0)
            (jsOr trip.advanceAmount 0
              - es.foldl (fun acc curr => acc + curr.amountBase) 0)).data
          ++ ("\n\n" : String).data ++ (headerRow t trip).data
          ++ ("\n" : String).data ++ (expenseRowsCSV t es).data) := by
    unfold handleExportCSV
    dsimp only
    simp [String.data_append, e1, e2, List.append_assoc]
  constructor
  · rw [hd]
    exact List.take_left' rfl
  · rw [hd]
    rfl

/-- C8 counterexample: the concrete export for the sample trip starts with
the character `s` of the `sep=;` hint line, not with the byte-order mark. -/
theorem csv_not_bom_first_cex :
    (handleExportCSV (fun k => k) sampleTrip []).data.head? = some 's'
    ∧ (handleExportCSV (fun k => k) sampleTrip []).data.head? ≠ some '﻿' := by
  obtain ⟨-, hh⟩ := handleExportCSV_head (fun k => k) sampleTrip []
  refine ⟨hh, ?_⟩
  rw [hh]
  decide

/-- C8 (amended): the export uses `;` as field separator and `,` as decimal
separator (the number formatters emit no dot), and consists of an Excel
`sep=;` hint line, then the UTF-8 byte-order mark (so the file does not
begin with the mark), then the metadata block, a blank line, the table
header row and the expense rows. -/
theorem csv_structure (t : String → String) (trip : Trip) (es : List Expense) :
    (handleExportCSV t trip es).data.take 7 = ['s', 'e', 'p', '=', ';', '\n', '﻿']
    ∧ (handleExportCSV t trip es).data.head? = some 's'
    ∧ handleExportCSV t trip es
        = "sep=;\n" ++ "﻿"
          ++ metadataRows t trip (es.foldl (fun acc curr => acc + curr.amountBase) 0)
              (jsOr trip.advanceAmount 0
                - es.foldl (fun acc curr => acc + curr.amountBase) 0)
          ++ "\n\n" ++ headerRow t trip ++ "\n" ++ expenseRowsCSV t es
    ∧ (∀ q : ℚ, '.' ∉ (formatDecimal q).data ∧ ',' ∈ (formatDecimal q).data)
    ∧ (∀ q : ℚ, '.' ∉ (formatRate q).data ∧ ',' ∈ (formatRate q).data) := by
  obtain ⟨h1, h2⟩ := handleExportCSV_head t trip es
  exact ⟨h1, h2, rfl, formatDecimal_comma, formatRate_comma⟩

end Voyage
